import Mathlib

/-
Verification development for the body-tracking pipeline of the
Augmented-Reality-Vogue repository.  The core logic (temporal smoothing of
pose keypoints, per-part centroid computation, movement detection, motion
log) is embedded shallowly: pixel coordinates and confidence scores are
modelled as exact rationals, the mutable refs of the component become
explicit state passed through the functions, and the nullable JavaScript
values become `Option`.
-/

namespace BodyTracking

/-- A 2-D pixel position, as in the `position` field of a PoseNet keypoint. -/
structure Position where
  x : ℚ
  y : ℚ
deriving DecidableEq

/-- One detected keypoint: `{ part, position, score }` as produced by PoseNet. -/
structure Keypoint where
  part : String
  position : Position
  score : ℚ
deriving DecidableEq

/-- A frame detection: the ordered keypoint sequence for one video frame. -/
abbrev Frame := List Keypoint

/-- `const SMOOTHING_WINDOW = 5`. -/
def SMOOTHING_WINDOW : ℕ := 5

/-- `const CONFIDENCE_THRESHOLD = 0.5`. -/
def CONFIDENCE_THRESHOLD : ℚ := 1/2

/-- `const MOVEMENT_THRESHOLD = 15`. -/
def MOVEMENT_THRESHOLD : ℚ := 15

/-- `const FRAME_SKIP = 5`. -/
def FRAME_SKIP : ℕ := 5

/-- The history update at the top of `applyTemporalSmoothing`:
`keypointHistoryRef.current.push(keypoints)` followed by
`if (length > SMOOTHING_WINDOW) shift()`. -/
def pushHistory (hist : List Frame) (frame : Frame) : List Frame :=
  let h := hist ++ [frame]
  if SMOOTHING_WINDOW < h.length then h.tail else h

/-- The history entries whose `i`-th keypoint exists and has
`score >= CONFIDENCE_THRESHOLD`: the frames accumulated by the inner
`forEach` of `applyTemporalSmoothing` (the condition
`frame[i] && frame[i].score >= CONFIDENCE_THRESHOLD`). -/
def qualifying (hist : List Frame) (i : ℕ) : List Keypoint :=
  hist.filterMap fun frame =>
    match frame[i]? with
    | some kp => if CONFIDENCE_THRESHOLD ≤ kp.score then some kp else none
    | none => none

/-- The body of the `keypoints.map((kp, i) => ...)` callback in
`applyTemporalSmoothing`: averages position and score over the qualifying
history entries, falling back to `kp` itself when none qualify. -/
def smoothAt (hist : List Frame) (i : ℕ) (kp : Keypoint) : Keypoint :=
  let valid := qualifying hist i
  if valid.length = 0 then kp
  else
    { part := kp.part
      position :=
        { x := (valid.map fun k => k.position.x).sum / (valid.length : ℚ)
          y := (valid.map fun k => k.position.y).sum / (valid.length : ℚ) }
      score := (valid.map fun k => k.score).sum / (valid.length : ℚ) }

/-- Index-aware map, mirroring JavaScript `Array.prototype.map` with the
index argument; `s` is the index of the first element. -/
def mapIdxFrom (f : ℕ → Keypoint → Keypoint) : ℕ → List Keypoint → List Keypoint
  | _, [] => []
  | s, kp :: rest => f s kp :: mapIdxFrom f (s + 1) rest

/-- `applyTemporalSmoothing(keypoints)`.  The mutated history ref becomes an
explicit input/output: the result is the new history paired with the
returned (possibly smoothed) keypoint sequence. -/
def applyTemporalSmoothing (hist : List Frame) (keypoints : Frame) :
    List Frame × Frame :=
  let hist2 := pushHistory hist keypoints
  if hist2.length < 2 then (hist2, keypoints)
  else (hist2, mapIdxFrom (fun i kp => smoothAt hist2 i kp) 0 keypoints)

/-- The indexed keypoints accumulated by the `forEach` of
`calculatePartCenter`: those that exist and have
`score >= CONFIDENCE_THRESHOLD`. -/
def survivors (keypoints : Frame) (partIndices : List ℕ) : List Keypoint :=
  partIndices.filterMap fun idx =>
    match keypoints[idx]? with
    | some kp => if CONFIDENCE_THRESHOLD ≤ kp.score then some kp else none
    | none => none

/-- `calculatePartCenter(keypoints, partIndices)`: arithmetic mean of the
indexed keypoints with `score >= CONFIDENCE_THRESHOLD`, `null` (here
`none`) when no keypoint survives the filter. -/
def calculatePartCenter (keypoints : Frame) (partIndices : List ℕ) :
    Option Position :=
  let valid := survivors keypoints partIndices
  if valid.length = 0 then none
  else
    some { x := (valid.map fun k => k.position.x).sum / (valid.length : ℚ)
           y := (valid.map fun k => k.position.y).sum / (valid.length : ℚ) }

/-- The six named body parts of `BODY_PARTS`. -/
inductive PartName where
  | head | leftArm | rightArm | leftLeg | rightLeg | torso
deriving DecidableEq

/-- The `BODY_PARTS` keypoint-index table. -/
def BODY_PARTS : PartName → List ℕ
  | .head => [0, 1, 2, 3, 4]
  | .leftArm => [5, 7, 9]
  | .rightArm => [6, 8, 10]
  | .leftLeg => [11, 13, 15]
  | .rightLeg => [12, 14, 16]
  | .torso => [5, 6, 11, 12]

/-- The six part centers computed at the top of `analyzeMovement`
(the `currentParts` object). -/
structure PartCenters where
  head : Option Position
  leftArm : Option Position
  rightArm : Option Position
  leftLeg : Option Position
  rightLeg : Option Position
  torso : Option Position
deriving DecidableEq

/-- The `currentParts` construction in `analyzeMovement`. -/
def computeParts (kps : Frame) : PartCenters :=
  { head := calculatePartCenter kps (BODY_PARTS .head)
    leftArm := calculatePartCenter kps (BODY_PARTS .leftArm)
    rightArm := calculatePartCenter kps (BODY_PARTS .rightArm)
    leftLeg := calculatePartCenter kps (BODY_PARTS .leftLeg)
    rightLeg := calculatePartCenter kps (BODY_PARTS .rightLeg)
    torso := calculatePartCenter kps (BODY_PARTS .torso) }

/-- The head block of `analyzeMovement`: per-axis deltas, each axis tested
independently against `MOVEMENT_THRESHOLD`, pushing the strings
`Head turned left/right` and `Head tilted down/up`. -/
def headEvents (cur prev : Option Position) : List String :=
  match cur, prev with
  | some c, some p =>
    let dx := c.x - p.x
    let dy := c.y - p.y
    (if MOVEMENT_THRESHOLD < |dx| then
      [if 0 < dx then "Head turned left" else "Head turned right"]
    else []) ++
    (if MOVEMENT_THRESHOLD < |dy| then
      [if 0 < dy then "Head tilted down" else "Head tilted up"]
    else [])
  | _, _ => []

/-- Squared Euclidean displacement between two centers. -/
def distSq (c p : Position) : ℚ := (c.x - p.x) ^ 2 + (c.y - p.y) ^ 2

/-- The source compares `Math.sqrt(distSq) > threshold`; with both sides
nonnegative this is equivalent to comparing the square of the threshold
against the squared distance, which stays in exact rational arithmetic. -/
def movedBeyond (c p : Position) (threshold : ℚ) : Bool :=
  decide (threshold ^ 2 < distSq c p)

/-- One iteration of the limb `forEach` in `analyzeMovement`:
`displayName` is `part.replace(/([A-Z])/g, ' $1').trim()`, and the pushed
string is `` `${partName} movement` ``. -/
def limbEvents (displayName : String) (cur prev : Option Position) :
    List String :=
  match cur, prev with
  | some c, some p =>
    if movedBeyond c p MOVEMENT_THRESHOLD then [displayName ++ " movement"]
    else []
  | _, _ => []

/-- The torso block of `analyzeMovement`: threshold `MOVEMENT_THRESHOLD * 1.5`,
pushing `Body movement`. -/
def torsoEvents (cur prev : Option Position) : List String :=
  match cur, prev with
  | some c, some p =>
    if movedBeyond c p (MOVEMENT_THRESHOLD * (3/2)) then ["Body movement"]
    else []
  | _, _ => []

/-- All movements pushed by one `analyzeMovement` pass, in source order:
head (turn then tilt), then leftArm, rightArm, leftLeg, rightLeg, torso. -/
def movementsOf (cur prev : PartCenters) : List String :=
  headEvents cur.head prev.head ++
  limbEvents "left Arm" cur.leftArm prev.leftArm ++
  limbEvents "right Arm" cur.rightArm prev.rightArm ++
  limbEvents "left Leg" cur.leftLeg prev.leftLeg ++
  limbEvents "right Leg" cur.rightLeg prev.rightLeg ++
  torsoEvents cur.torso prev.torso

/-- The `setMotionLog` update in `analyzeMovement`: when the batch is
nonempty, prepend it (in production order) and keep the first 10 entries;
an empty batch leaves the log untouched.  The wall-clock timestamp attached
to each entry is not modelled; entries are their text. -/
def recordLog (movements : List String) (log : List String) : List String :=
  if 0 < movements.length then (movements ++ log).take 10 else log

/-- The movement detector's mutable state: `previousKeypointsRef` and the
`motionLog` React state. -/
structure DetectorState where
  previousKeypoints : Option PartCenters
  motionLog : List String
deriving DecidableEq

/-- `analyzeMovement(smoothedKeypoints)`.  The argument is `none` for a
null/undefined input (the `!smoothedKeypoints` guard).  Returns the updated
state and the batch of movement strings pushed during the call. -/
def analyzeMovement (st : DetectorState) (smoothedKeypoints : Option Frame) :
    DetectorState × List String :=
  match smoothedKeypoints with
  | none => (st, [])
  | some kps =>
    if kps.length = 0 then (st, [])
    else
      let currentParts := computeParts kps
      match st.previousKeypoints with
      | none => ({ st with previousKeypoints := some currentParts }, [])
      | some prev =>
        let movements := movementsOf currentParts prev
        ({ previousKeypoints := some currentParts
           motionLog := recordLog movements st.motionLog }, movements)

/-- The per-session state touched by the `detectPose` loop:
`frameCountRef`, `keypointHistoryRef` and the detector state. -/
structure LoopState where
  frameCount : ℕ
  history : List Frame
  detector : DetectorState
deriving DecidableEq

/-- What one `detectPose` iteration did: the new state, the keypoints drawn
on the canvas this frame (if any), and whether `analyzeMovement` ran. -/
structure StepResult where
  state : LoopState
  rendered : Option Frame
  analysisRan : Bool
deriving DecidableEq

/-- One successful `detectPose` iteration, given the pose estimate for the
frame (`none` when `pose`/`pose.keypoints` is absent): smooth, draw, then
increment the frame counter and analyze only when it is divisible by
`FRAME_SKIP`. -/
def detectStep (st : LoopState) (pose : Option Frame) : StepResult :=
  match pose with
  | none => { state := st, rendered := none, analysisRan := false }
  | some keypoints =>
    let sm := applyTemporalSmoothing st.history keypoints
    let fc := st.frameCount + 1
    if fc % FRAME_SKIP = 0 then
      { state :=
          { frameCount := fc
            history := sm.1
            detector := (analyzeMovement st.detector (some sm.2)).1 }
        rendered := some sm.2
        analysisRan := true }
    else
      { state := { frameCount := fc, history := sm.1, detector := st.detector }
        rendered := some sm.2
        analysisRan := false }

/-- The smoothing history obtained after feeding a sequence of frames,
starting from the empty history of a fresh session. -/
def historyAfter (frames : List Frame) : List Frame :=
  frames.foldl (fun h f => (applyTemporalSmoothing h f).1) []

/-- The motion log obtained after recording a sequence of event batches,
starting from a given log. -/
def recordBatches (batches : List (List String)) (log : List String) :
    List String :=
  batches.foldl (fun l m => recordLog m l) log

/-! ## General lemmas about the embedded operations -/

/-- The first component of `applyTemporalSmoothing` is the pushed history. -/
theorem applyTemporalSmoothing_fst (hist : List Frame) (kps : Frame) :
    (applyTemporalSmoothing hist kps).1 = pushHistory hist kps := by
  unfold applyTemporalSmoothing
  dsimp only
  split <;> rfl

/-- Indexing an index-aware map. -/
theorem mapIdxFrom_getElem? (f : ℕ → Keypoint → Keypoint) (s i : ℕ)
    (l : List Keypoint) :
    (mapIdxFrom f s l)[i]? = Option.map (f (s + i)) l[i]? := by
  induction l generalizing s i with
  | nil => simp [mapIdxFrom]
  | cons a as ih =>
    cases i with
    | zero => simp [mapIdxFrom]
    | succ n =>
      simp only [mapIdxFrom, List.getElem?_cons_succ]
      have he : s + 1 + n = s + (n + 1) := by omega
      rw [ih, he]

/-- Length evolution of one history push. -/
theorem pushHistory_length (h : List Frame) (f : Frame) :
    (pushHistory h f).length =
      if SMOOTHING_WINDOW < h.length + 1 then h.length else h.length + 1 := by
  unfold pushHistory
  dsimp only
  split
  · rename_i hc
    simp only [List.length_append, List.length_cons, List.length_nil] at hc
    simp only [List.length_tail, List.length_append, List.length_cons,
      List.length_nil]
    rw [if_pos (by omega)]
    omega
  · rename_i hc
    simp only [List.length_append, List.length_cons, List.length_nil] at hc
    simp only [List.length_append, List.length_cons, List.length_nil]
    rw [if_neg (by omega)]

/-- Every keypoint collected by the qualifying filter passed the confidence
threshold. -/
theorem qualifying_score (hist : List Frame) (i : ℕ) (k : Keypoint)
    (hk : k ∈ qualifying hist i) : CONFIDENCE_THRESHOLD ≤ k.score := by
  unfold qualifying at hk
  rw [List.mem_filterMap] at hk
  obtain ⟨f, _, hf⟩ := hk
  cases hfi : f[i]? with
  | none => rw [hfi] at hf; simp at hf
  | some kp =>
    rw [hfi] at hf
    dsimp only at hf
    by_cases hs : CONFIDENCE_THRESHOLD ≤ kp.score
    · rw [if_pos hs] at hf
      simp only [Option.some.injEq] at hf
      subst hf
      exact hs
    · rw [if_neg hs] at hf
      simp at hf

/-- A list mean is bounded below by a common lower bound of the entries. -/
theorem le_list_mean (c : ℚ) (l : List ℚ) (hne : l ≠ [])
    (h : ∀ x ∈ l, c ≤ x) : c ≤ l.sum / (l.length : ℚ) := by
  have hsum : (l.length : ℚ) * c ≤ l.sum := by
    clear hne
    induction l with
    | nil => simp
    | cons a as ih =>
      have ha : c ≤ a := h a (by simp)
      have has : (as.length : ℚ) * c ≤ as.sum :=
        ih fun x hx => h x (by simp [hx])
      simp only [List.sum_cons, List.length_cons]
      push_cast
      nlinarith
  have hlen : (0 : ℚ) < (l.length : ℚ) := by
    have : 0 < l.length := List.length_pos.mpr hne
    exact_mod_cast this
  rw [le_div_iff₀ hlen]
  nlinarith

/-- The smoothing branch: with at least two history entries, the returned
sequence is the index-aware map of `smoothAt` over the input. -/
theorem applyTemporalSmoothing_snd_of_two_le (hist : List Frame) (kps : Frame)
    (h : 2 ≤ (pushHistory hist kps).length) :
    (applyTemporalSmoothing hist kps).2 =
      mapIdxFrom (fun i kp => smoothAt (pushHistory hist kps) i kp) 0 kps := by
  unfold applyTemporalSmoothing
  dsimp only
  rw [if_neg (by omega)]

/-- A 17-keypoint frame with all scores confident, used as concrete input by
the witnesses. -/
def testFrame : Frame :=
  (List.range 17).map fun i => { part := "kp", position := ⟨i, i⟩, score := 1 }

/-! ## Claim theorems -/

/-- C1: For every call to the smoothing stage with a 17-entry frame: if the
internal history (after appending the frame) has fewer than 2 entries, the
returned frame equals the input frame unchanged; otherwise, for each
keypoint index `i`, the returned keypoint's position and score are the
arithmetic means over all history entries whose `i`-th keypoint has score
at least the confidence threshold, and if zero history entries qualify for
index `i`, the returned `i`-th keypoint equals the input frame's own `i`-th
keypoint unchanged. -/
theorem smoothing_functional_spec (hist : List Frame) (kps : Frame)
    (_hlen : kps.length = 17) :
    ((applyTemporalSmoothing hist kps).1.length < 2 →
      (applyTemporalSmoothing hist kps).2 = kps) ∧
    (2 ≤ (applyTemporalSmoothing hist kps).1.length →
      ∀ i : ℕ, i < 17 →
        (applyTemporalSmoothing hist kps).2[i]? =
          Option.map
            (fun kp =>
              let valid := qualifying (applyTemporalSmoothing hist kps).1 i
              if valid.length = 0 then kp
              else
                { part := kp.part
                  position :=
                    { x := (valid.map fun k => k.position.x).sum /
                        (valid.length : ℚ)
                      y := (valid.map fun k => k.position.y).sum /
                        (valid.length : ℚ) }
                  score := (valid.map fun k => k.score).sum /
                    (valid.length : ℚ) })
            kps[i]?) := by
  constructor
  · intro h
    rw [applyTemporalSmoothing_fst] at h
    unfold applyTemporalSmoothing
    dsimp only
    rw [if_pos h]
  · intro h i _
    rw [applyTemporalSmoothing_fst] at h
    rw [applyTemporalSmoothing_fst,
      applyTemporalSmoothing_snd_of_two_le hist kps h, mapIdxFrom_getElem?]
    cases kps[i]? with
    | none => rfl
    | some kp =>
      simp only [Option.map_some, Nat.zero_add, Option.some.injEq]
      rfl

/-- Witness for C1 at a concrete input: a 17-entry frame fed on top of a
one-frame history lands in the smoothing branch, and index 0 is the mean of
the qualifying entries. -/
theorem smoothing_functional_spec_witness :
    testFrame.length = 17 ∧
    2 ≤ (applyTemporalSmoothing [testFrame] testFrame).1.length ∧
    (applyTemporalSmoothing [testFrame] testFrame).2[0]? =
      Option.map
        (fun kp => smoothAt (applyTemporalSmoothing [testFrame] testFrame).1 0 kp)
        testFrame[0]? := by
  refine ⟨by decide, by decide, ?_⟩
  exact (smoothing_functional_spec [testFrame] testFrame (by decide)).2
    (by decide) 0 (by omega)

/-- C9: For every keypoint index at which the smoothing stage actually
averages (at least one qualifying history entry and at least 2 frames of
history), the returned smoothed keypoint's score is itself at least the
confidence threshold, being a mean of values each at least the
threshold. -/
theorem smoothed_score_confident (hist : List Frame) (kps : Frame) (i : ℕ)
    (h2 : 2 ≤ (applyTemporalSmoothing hist kps).1.length)
    (hq : qualifying (applyTemporalSmoothing hist kps).1 i ≠ []) :
    ∀ kp : Keypoint, (applyTemporalSmoothing hist kps).2[i]? = some kp →
      CONFIDENCE_THRESHOLD ≤ kp.score := by
  intro kp hkp
  rw [applyTemporalSmoothing_fst] at h2 hq
  rw [applyTemporalSmoothing_snd_of_two_le hist kps h2,
    mapIdxFrom_getElem?] at hkp
  cases hki : kps[i]? with
  | none => rw [hki] at hkp; simp at hkp
  | some kp0 =>
    rw [hki] at hkp
    have hkp2 : smoothAt (pushHistory hist kps) i kp0 = kp := by
      have := hkp
      rw [Nat.zero_add] at this
      simpa using this
    subst hkp2
    unfold smoothAt
    dsimp only
    rw [if_neg (by simpa [List.length_eq_zero] using hq)]
    dsimp only
    have hmem : ∀ x ∈ (qualifying (pushHistory hist kps) i).map
        (fun k => k.score), CONFIDENCE_THRESHOLD ≤ x := by
      intro x hx
      rw [List.mem_map] at hx
      obtain ⟨k, hk, rfl⟩ := hx
      exact qualifying_score _ _ _ hk
    have := le_list_mean CONFIDENCE_THRESHOLD
      ((qualifying (pushHistory hist kps) i).map fun k => k.score)
      (by simpa using hq) hmem
    simpa using this

/-- Witness for C9: two identical fully-confident frames in history make
index 0 a genuine average, whose score stays at or above the threshold. -/
theorem smoothed_score_confident_witness :
    2 ≤ (applyTemporalSmoothing [testFrame] testFrame).1.length ∧
    qualifying (applyTemporalSmoothing [testFrame] testFrame).1 0 ≠ [] ∧
    ∃ kp : Keypoint, (applyTemporalSmoothing [testFrame] testFrame).2[0]? = some kp ∧
      CONFIDENCE_THRESHOLD ≤ kp.score := by
  have hq : qualifying (applyTemporalSmoothing [testFrame] testFrame).1 0 ≠ [] := by
    intro hcontra
    rw [applyTemporalSmoothing_fst] at hcontra
    norm_num [qualifying, pushHistory, testFrame, List.filterMap,
      CONFIDENCE_THRESHOLD, List.range_succ] at hcontra
    exact List.cons_ne_nil _ _ hcontra
  refine ⟨by decide, hq, ?_⟩
  cases hkp : (applyTemporalSmoothing [testFrame] testFrame).2[0]? with
  | none =>
    exfalso
    rw [applyTemporalSmoothing_snd_of_two_le _ _ (by decide),
      mapIdxFrom_getElem?] at hkp
    revert hkp
    decide
  | some kp =>
    exact ⟨kp, rfl, smoothed_score_confident [testFrame] testFrame 0
      (by decide) hq kp hkp⟩

/-- Bridge between the rational embedding of the distance test and the
source's `Math.sqrt(...) > threshold` comparison over the reals. -/
theorem movedBeyond_iff_sqrt (c p : Position) (t : ℚ) (ht : 0 ≤ t) :
    movedBeyond c p t = true ↔
      (t : ℝ) < Real.sqrt ((distSq c p : ℚ) : ℝ) := by
  unfold movedBeyond
  rw [decide_eq_true_eq, Real.lt_sqrt (by exact_mod_cast ht)]
  constructor
  · intro h
    exact_mod_cast h
  · intro h
    exact_mod_cast h

/-- The squared displacement is nonnegative. -/
theorem distSq_nonneg (c p : Position) : 0 ≤ distSq c p := by
  unfold distSq
  positivity

/-- C2: with both head centers defined the two axes are tested
independently: one turn event exactly when `|dx| > 15` (left for `dx > 0`,
right otherwise), one tilt event exactly when `|dy| > 15` (down for
`dy > 0`, up otherwise), hence zero, one or two head events per call; a
displacement of `(20, 0)` yields exactly the single event
`Head turned left`. -/
theorem head_axis_events (c p : Position) :
    headEvents (some c) (some p) =
      (if MOVEMENT_THRESHOLD < |c.x - p.x| then
        [if 0 < c.x - p.x then "Head turned left" else "Head turned right"]
      else []) ++
      (if MOVEMENT_THRESHOLD < |c.y - p.y| then
        [if 0 < c.y - p.y then "Head tilted down" else "Head tilted up"]
      else []) ∧
    (headEvents (some c) (some p)).length ≤ 2 ∧
    headEvents (some ⟨120, 100⟩) (some ⟨100, 100⟩) = ["Head turned left"] := by
  refine ⟨rfl, ?_, ?_⟩
  · unfold headEvents
    dsimp only
    rw [List.length_append]
    have h1 : (if MOVEMENT_THRESHOLD < |c.x - p.x| then
        [if 0 < c.x - p.x then "Head turned left" else "Head turned right"]
      else []).length ≤ 1 := by split <;> simp
    have h2 : (if MOVEMENT_THRESHOLD < |c.y - p.y| then
        [if 0 < c.y - p.y then "Head tilted down" else "Head tilted up"]
      else []).length ≤ 1 := by split <;> simp
    omega
  · norm_num [headEvents, MOVEMENT_THRESHOLD]

/-- C3: each of the four limbs emits exactly one generic movement event iff
the Euclidean displacement of its center strictly exceeds 15, the torso
emits `Body movement` iff it strictly exceeds 22.5; a 20px torso
displacement emits nothing and a 23px one emits exactly one event. -/
theorem limb_torso_distance_thresholds (displayName : String)
    (c p : Position) :
    (limbEvents displayName (some c) (some p) = [displayName ++ " movement"] ↔
      (15 : ℝ) < Real.sqrt ((distSq c p : ℚ) : ℝ)) ∧
    (limbEvents displayName (some c) (some p) = [] ↔
      Real.sqrt ((distSq c p : ℚ) : ℝ) ≤ 15) ∧
    (torsoEvents (some c) (some p) = ["Body movement"] ↔
      (22.5 : ℝ) < Real.sqrt ((distSq c p : ℚ) : ℝ)) ∧
    (torsoEvents (some c) (some p) = [] ↔
      Real.sqrt ((distSq c p : ℚ) : ℝ) ≤ 22.5) ∧
    torsoEvents (some ⟨20, 0⟩) (some ⟨0, 0⟩) = [] ∧
    torsoEvents (some ⟨23, 0⟩) (some ⟨0, 0⟩) = ["Body movement"] := by
  have h15 : ((MOVEMENT_THRESHOLD : ℚ) : ℝ) = 15 := by
    norm_num [MOVEMENT_THRESHOLD]
  have h225 : ((MOVEMENT_THRESHOLD * (3/2) : ℚ) : ℝ) = 22.5 := by
    norm_num [MOVEMENT_THRESHOLD]
  have hlimb := movedBeyond_iff_sqrt c p MOVEMENT_THRESHOLD
    (by norm_num [MOVEMENT_THRESHOLD])
  have htorso := movedBeyond_iff_sqrt c p (MOVEMENT_THRESHOLD * (3/2))
    (by norm_num [MOVEMENT_THRESHOLD])
  rw [h15] at hlimb
  rw [h225] at htorso
  refine ⟨?_, ?_, ?_, ?_, ?_, ?_⟩
  · unfold limbEvents
    dsimp only
    rw [← hlimb]
    cases hb : movedBeyond c p MOVEMENT_THRESHOLD <;> simp
  · unfold limbEvents
    dsimp only
    rw [show (Real.sqrt ((distSq c p : ℚ) : ℝ) ≤ 15) ↔
        ¬ (15 : ℝ) < Real.sqrt ((distSq c p : ℚ) : ℝ) from (not_lt).symm,
      ← hlimb]
    cases hb : movedBeyond c p MOVEMENT_THRESHOLD <;> simp
  · unfold torsoEvents
    dsimp only
    rw [← htorso]
    cases hb : movedBeyond c p (MOVEMENT_THRESHOLD * (3/2)) <;> simp
  · unfold torsoEvents
    dsimp only
    rw [show (Real.sqrt ((distSq c p : ℚ) : ℝ) ≤ 22.5) ↔
        ¬ (22.5 : ℝ) < Real.sqrt ((distSq c p : ℚ) : ℝ) from (not_lt).symm,
      ← htorso]
    cases hb : movedBeyond c p (MOVEMENT_THRESHOLD * (3/2)) <;> simp
  · norm_num [torsoEvents, movedBeyond, distSq, MOVEMENT_THRESHOLD]
  · norm_num [torsoEvents, movedBeyond, distSq, MOVEMENT_THRESHOLD]

/-- C5: the part-center computation returns the arithmetic mean of exactly
the indexed keypoints whose score passes the confidence threshold, `none`
when zero keypoints survive; keypoints at `(0,0)` and `(10,10)`, both with
score `0.9`, have center `(5,5)`. -/
theorem part_center_spec (kps : Frame) (idxs : List ℕ) :
    (survivors kps idxs = [] → calculatePartCenter kps idxs = none) ∧
    (survivors kps idxs ≠ [] → calculatePartCenter kps idxs =
      some { x := ((survivors kps idxs).map fun k => k.position.x).sum /
               ((survivors kps idxs).length : ℚ)
             y := ((survivors kps idxs).map fun k => k.position.y).sum /
               ((survivors kps idxs).length : ℚ) }) ∧
    calculatePartCenter
        [⟨"a", ⟨0, 0⟩, 9/10⟩, ⟨"b", ⟨10, 10⟩, 9/10⟩] [0, 1] =
      some ⟨5, 5⟩ := by
  refine ⟨?_, ?_, ?_⟩
  · intro hv
    unfold calculatePartCenter
    dsimp only
    rw [hv]
    rfl
  · intro hv
    unfold calculatePartCenter
    dsimp only
    rw [if_neg (by simpa [List.length_eq_zero] using hv)]
  · norm_num [calculatePartCenter, survivors, List.filterMap,
      CONFIDENCE_THRESHOLD]

/-- Witness for C5: the concrete two-keypoint part from the claim, run
through the nonempty-filter branch of the theorem. -/
theorem part_center_spec_witness :
    calculatePartCenter
        [⟨"a", ⟨0, 0⟩, 9/10⟩, ⟨"b", ⟨10, 10⟩, 9/10⟩] [0, 1] =
      some ⟨5, 5⟩ :=
  (part_center_spec [⟨"a", ⟨0, 0⟩, 9/10⟩, ⟨"b", ⟨10, 10⟩, 9/10⟩] [0, 1]).2.2

/-- C10: a missing or empty keypoint sequence produces no events and leaves
the movement detector's state (previous part centers and motion log)
completely unchanged. -/
theorem empty_input_preserves_state (st : DetectorState) :
    analyzeMovement st none = (st, []) ∧
    analyzeMovement st (some []) = (st, []) :=
  ⟨rfl, rfl⟩

/-- C4: the first movement-detector call with a nonempty frame returns no
events and records the computed part centers as baseline; every such call
overwrites the previous part centers with the freshly computed ones. -/
theorem first_call_baseline (st : DetectorState) (kps : Frame)
    (hne : kps ≠ []) :
    (st.previousKeypoints = none →
      analyzeMovement st (some kps) =
        ({ st with previousKeypoints := some (computeParts kps) }, [])) ∧
    (analyzeMovement st (some kps)).1.previousKeypoints =
      some (computeParts kps) := by
  have hl : ¬ kps.length = 0 := by
    simpa [List.length_eq_zero] using hne
  constructor
  · intro h
    unfold analyzeMovement
    dsimp only
    rw [if_neg hl, h]
  · unfold analyzeMovement
    dsimp only
    rw [if_neg hl]
    cases hp : st.previousKeypoints <;> rfl

/-- Witness for C4: a fresh detector fed the concrete 17-keypoint frame
returns no events and stores its part centers. -/
theorem first_call_baseline_witness :
    analyzeMovement ⟨none, []⟩ (some testFrame) =
      (⟨some (computeParts testFrame), []⟩, []) :=
  (first_call_baseline ⟨none, []⟩ testFrame (by decide)).1 rfl

/-- Foldl invariant for the smoothing history length. -/
theorem historyAfter_length_aux (frames : List Frame) :
    ∀ h : List Frame, h.length ≤ SMOOTHING_WINDOW →
      (frames.foldl (fun h f => (applyTemporalSmoothing h f).1) h).length =
        min (h.length + frames.length) SMOOTHING_WINDOW := by
  induction frames with
  | nil =>
    intro h hh
    simp only [List.foldl_nil, List.length_nil]
    omega
  | cons f fs ih =>
    intro h hh
    rw [List.foldl_cons]
    have hstep : ((applyTemporalSmoothing h f).1).length =
        if SMOOTHING_WINDOW < h.length + 1 then h.length
        else h.length + 1 := by
      rw [applyTemporalSmoothing_fst, pushHistory_length]
    have hle : ((applyTemporalSmoothing h f).1).length ≤ SMOOTHING_WINDOW := by
      rw [hstep]
      split <;> omega
    rw [ih _ hle, hstep]
    simp only [List.length_cons]
    split <;> omega

/-- C6: the retained keypoint history never exceeds `SMOOTHING_WINDOW = 5`
entries: its length is the minimum of the number of frames fed and 5, a
step from a bounded history stays bounded, and feeding more than 5 frames
leaves exactly 5. -/
theorem history_bound (frames : List Frame) :
    (historyAfter frames).length = min frames.length SMOOTHING_WINDOW ∧
    (SMOOTHING_WINDOW < frames.length →
      (historyAfter frames).length = SMOOTHING_WINDOW) ∧
    (∀ hist f, hist.length ≤ SMOOTHING_WINDOW →
      ((applyTemporalSmoothing hist f).1).length ≤ SMOOTHING_WINDOW) := by
  have hmain : (historyAfter frames).length =
      min frames.length SMOOTHING_WINDOW := by
    unfold historyAfter
    have := historyAfter_length_aux frames [] (by simp)
    simpa using this
  refine ⟨hmain, fun h => by rw [hmain]; omega, fun hist f hh => ?_⟩
  rw [applyTemporalSmoothing_fst, pushHistory_length]
  split <;> omega

/-- Witness for C6: six frames leave exactly a five-frame history. -/
theorem history_bound_witness :
    SMOOTHING_WINDOW < (List.replicate 6 ([] : Frame)).length ∧
    (historyAfter (List.replicate 6 ([] : Frame))).length =
      SMOOTHING_WINDOW :=
  ⟨by decide, (history_bound (List.replicate 6 [])).2.1 (by decide)⟩

/-- One record keeps the log within the 10-entry window. -/
theorem recordLog_length_le (movements log : List String)
    (h : log.length ≤ 10) : (recordLog movements log).length ≤ 10 := by
  unfold recordLog
  split
  · simp only [List.length_take]
    omega
  · exact h

/-- Any sequence of records starting from the empty log stays within the
10-entry window. -/
theorem recordBatches_length_le (batches : List (List String)) :
    ∀ log : List String, log.length ≤ 10 →
      (recordBatches batches log).length ≤ 10 := by
  induction batches with
  | nil =>
    intro log h
    simpa [recordBatches] using h
  | cons b bs ih =>
    intro log h
    have hstep : recordBatches (b :: bs) log =
        recordBatches bs (recordLog b log) := rfl
    rw [hstep]
    exact ih _ (recordLog_length_le b log h)

/-- C7: each record prepends the batch (in production order) to the log
front and truncates to the first 10 entries; the log never exceeds 10
entries; recording 12 events one at a time retains exactly the 10 most
recent, newest first. -/
theorem event_log_window (movements log : List String) :
    (movements ≠ [] →
      recordLog movements log = (movements ++ log).take 10) ∧
    (movements = [] → recordLog movements log = log) ∧
    (∀ i : ℕ, i < movements.length → i < 10 →
      (recordLog movements log)[i]? = movements[i]?) ∧
    (∀ batches : List (List String),
      (recordBatches batches []).length ≤ 10) ∧
    recordBatches
        [["e1"], ["e2"], ["e3"], ["e4"], ["e5"], ["e6"], ["e7"], ["e8"],
          ["e9"], ["e10"], ["e11"], ["e12"]] [] =
      ["e12", "e11", "e10", "e9", "e8", "e7", "e6", "e5", "e4", "e3"] := by
  refine ⟨?_, ?_, ?_, ?_, rfl⟩
  · intro h
    unfold recordLog
    rw [if_pos (List.length_pos.mpr h)]
  · intro h
    subst h
    rfl
  · intro i h1 h2
    unfold recordLog
    rw [if_pos (by omega)]
    rw [List.getElem?_take, if_pos h2, List.getElem?_append, if_pos h1]
  · intro batches
    exact recordBatches_length_le batches [] (by simp)

/-- Witness for C7: recording twelve singleton batches leaves the ten most
recent entries, and the head of a fresh nonempty record is the batch
head. -/
theorem event_log_window_witness :
    (["x"] : List String) ≠ [] ∧
    recordLog ["x"] [] = (["x"] ++ ([] : List String)).take 10 :=
  ⟨List.cons_ne_nil _ _, (event_log_window ["x"] []).1 (List.cons_ne_nil _ _)⟩

/-- C8: in the detection loop, the frame counter increments once per
successful pose estimation, the smoothed skeleton is rendered on every
such frame, and aggregation plus movement detection run exactly when the
incremented counter is divisible by `FRAME_SKIP`. -/
theorem frame_skip_policy (st : LoopState) (kps : Frame) :
    (detectStep st (some kps)).state.frameCount = st.frameCount + 1 ∧
    (detectStep st (some kps)).rendered =
      some (applyTemporalSmoothing st.history kps).2 ∧
    ((detectStep st (some kps)).analysisRan = true ↔
      (st.frameCount + 1) % FRAME_SKIP = 0) ∧
    ((st.frameCount + 1) % FRAME_SKIP ≠ 0 →
      (detectStep st (some kps)).state.detector = st.detector) ∧
    ((st.frameCount + 1) % FRAME_SKIP = 0 →
      (detectStep st (some kps)).state.detector =
        (analyzeMovement st.detector
          (some (applyTemporalSmoothing st.history kps).2)).1) ∧
    detectStep st none = ⟨st, none, false⟩ := by
  unfold detectStep
  dsimp only
  by_cases h : (st.frameCount + 1) % FRAME_SKIP = 0
  · rw [if_pos h]
    exact ⟨rfl, rfl, by simp [h], fun hc => absurd h hc, fun _ => rfl, rfl⟩
  · rw [if_neg h]
    exact ⟨rfl, rfl, by simp [h], fun _ => rfl, fun hc => absurd hc h, rfl⟩

/-- Witness for C8: at frame counter 4, the next successful frame is the
fifth and triggers analysis. -/
theorem frame_skip_policy_witness :
    ((4 : ℕ) + 1) % FRAME_SKIP = 0 ∧
    (detectStep ⟨4, [], ⟨none, []⟩⟩ (some [])).analysisRan = true :=
  ⟨by decide, (frame_skip_policy ⟨4, [], ⟨none, []⟩⟩ []).2.2.1.mpr (by decide)⟩

end BodyTracking
